import Mathlib

/-!
Verification development for the fundus image extraction repository.

The development shallowly embeds the archive-processing pipeline of
src/main.py and the OCR field extractors of src/ocr.py.  Strings are
modelled as lists of characters; paths are slash-separated strings; the
database session is modelled as explicit record lists with a
persisted/pending split mirroring the transactional store; the MD5
fingerprint of src/main.py (an external hash library call) is passed in
as an uninterpreted function on byte lists; success or failure of the
transactional commit is an explicit boolean oracle.  Regular-expression
searches of src/ocr.py are embedded as explicit left-to-right scanners
with the same leftmost-match, greedy-quantifier semantics.
-/

namespace FundusXtract

/-- Strings are modelled as lists of characters. -/
abbrev Str := List Char

/-- Coerce a Lean string literal to the model representation. -/
def chars (s : String) : Str := s.data

/-- Python str.split with a single-character separator: every occurrence
splits, empty pieces are kept, and splitting the empty string yields one
empty piece. -/
def splitOnC (sep : Char) : Str → List Str
  | [] => [[]]
  | c :: rest =>
    match splitOnC sep rest with
    | [] => [[]]
    | p :: ps => if c = sep then [] :: p :: ps else (c :: p) :: ps

/-- Join pieces with a separator string, as Python str.join. -/
def joinWith (sep : Str) : List Str → Str
  | [] => []
  | [p] => p
  | p :: q :: ps => p ++ sep ++ joinWith sep (q :: ps)

/-- Replace every occurrence of one character by another,
as Python str.replace with single-character arguments. -/
def replaceC (a b : Char) (s : Str) : Str :=
  s.map fun c => if c = a then b else c

/-- ASCII whitespace, the characters matched by a backslash-s regular
expression class on the ASCII texts this program consumes. -/
def isWS (c : Char) : Bool :=
  c = ' ' || c = '\t' || c = '\n' || c = '\r' || c = '\x0b' || c = '\x0c'

/-- Lowercase a string character by character, as Python str.lower on
ASCII input. -/
def lowerS (s : Str) : Str := s.map Char.toLower

/-- Remove trailing whitespace. -/
def rtrimWS (s : Str) : Str := (s.reverse.dropWhile isWS).reverse

/-- Python str.strip: remove leading and trailing whitespace. -/
def strip (s : Str) : Str := rtrimWS (s.dropWhile isWS)

/-- Remove trailing occurrences of one character, as Python str.rstrip
with a single-character argument. -/
def rstripC (a : Char) (s : Str) : Str :=
  (s.reverse.dropWhile (fun c => c = a)).reverse

/-- Substring test, as the Python in operator on strings. -/
def containsSub (nd : Str) : Str → Bool
  | [] => decide (nd = [])
  | c :: rest => decide ((c :: rest).take nd.length = nd) || containsSub nd rest

/-- Case-insensitive leftmost search for a (pre-lowercased) literal
needle; returns the suffix of the original text that follows the first
match.  This is the semantics of re.search with an IGNORECASE literal
pattern, keeping what follows the matched region. -/
def dropAfterCI (nd : Str) : Str → Option Str
  | [] => if decide (nd = []) then some [] else none
  | c :: rest =>
    if lowerS ((c :: rest).take nd.length) = nd then some ((c :: rest).drop nd.length)
    else dropAfterCI nd rest

/-- First line of a string: everything before the first newline,
the head of Python str.split on a newline. -/
def firstLine (s : Str) : Str := s.takeWhile fun c => c != '\n'

/-- Path segments as pathlib computes parts: split on the slash and
drop empty segments and single-dot segments. -/
def pathParts (p : Str) : List Str :=
  (splitOnC '/' p).filter fun seg => !(decide (seg = []) || decide (seg = ['.']))

/-- The normalised string form of a path, as str applied to a pathlib
Path: the slash-join of its parts. -/
def strPath (p : Str) : Str := joinWith (chars "/") (pathParts p)

/-- Final path component, as the pathlib name attribute. -/
def baseName (p : Str) : Str := (pathParts p).getLastD []

/-- The extension of a file name, as the pathlib suffix attribute:
the substring from the last dot, provided that dot is neither the first
nor the last character of the name; otherwise empty. -/
def suffixOf (nm : Str) : Str :=
  match nm.reverse.findIdx? (fun c => c = '.') with
  | none => []
  | some k =>
    let i := nm.length - 1 - k
    if 0 < i ∧ i < nm.length - 1 then nm.drop i else []

/-- A zip member entry denotes a directory when its stored name ends
with a slash, as zipfile is_dir. -/
def isDirEntry (m : Str) : Bool := m.getLast? = some '/'

/-- Keep the first occurrence of each element, a deterministic stand-in
for building a Python set from a list: the source iterates a set whose
order is unspecified, and the model fixes first-occurrence order. -/
def dedupFirst : List (List Str) → List (List Str)
  | [] => []
  | x :: xs => x :: (dedupFirst xs).filter fun y => y ≠ x

/-! ## The archive pipeline of src/main.py -/

/-- The directory set implied by the member names of the archive, as
built on line 70 of src/main.py: the pathlib parent of every member
name.  Each directory is kept as its list of path segments. -/
def allDirs (names : List Str) : List (List Str) :=
  dedupFirst (names.map fun p => (pathParts p).dropLast)

/-- The qualification test of lines 74 to 77 of src/main.py applied to
one candidate directory: enumerate its prefixes shallowest first, join
each prefix with slashes, split the JOINED string on underscores, and
accept the first prefix giving at least 3 parts.  Underscores therefore
accumulate across parent segments. -/
def firstQualDir (d : List Str) : Option (List Str) :=
  (List.range d.length).findSome? fun i =>
    let pref := d.take (i + 1)
    if 3 ≤ (splitOnC '_' (joinWith (chars "/") pref)).length then some pref else none

/-- The double loop of lines 72 to 81 of src/main.py: the first
candidate directory (in the fixed enumeration order of the model)
containing a qualifying prefix wins. -/
def findQualifyingDir (dirs : List (List Str)) : Option (List Str) :=
  dirs.findSome? firstQualDir

/-- The naming-convention decomposition of lines 86 to 89 of
src/main.py: split the final path segment on underscores; the last part
is the capture date, the one before it the patient identifier, and the
remaining leading parts joined with spaces the name. -/
def parse_dir_name (segName : Str) : Str × Str × Str :=
  let parts := splitOnC '_' (rstripC '/' segName)
  (joinWith (chars " ") parts.dropLast.dropLast,
   parts.dropLast.getLastD [], parts.getLastD [])

/-- File kinds recognised by the classifier on lines 109 to 114 of
src/main.py. -/
inductive FType where
  | image
  | pdf
deriving DecidableEq

/-- Extension classification of lines 109 to 114 of src/main.py. -/
def classifyExt (ext : Str) : Option FType :=
  if ext = chars ".jpg" ∨ ext = chars ".jpeg" ∨ ext = chars ".png" ∨
     ext = chars ".gif" ∨ ext = chars ".bmp" then some .image
  else if ext = chars ".pdf" then some .pdf
  else none

/-- The destination filename built on line 107 of src/main.py. -/
def new_filename (pid nm date base : Str) : Str :=
  pid ++ chars "_" ++ replaceC ' ' '_' nm ++ chars "_" ++ date ++ chars "_" ++
    replaceC '/' '_' base

/-- One iteration of the member loop on lines 101 to 122 of
src/main.py: directory entries and members outside the qualifying
directory are skipped, the extension is classified, and a recognised
member yields its kind and its generated destination filename (the file
written to the kind-specific area and the record built for it carry
exactly this pair). -/
def process_member (dirStr pid nm date : Str) (m : Str) : Option (FType × Str) :=
  if isDirEntry m then none
  else if ¬ (dirStr.isPrefixOf (strPath m)) then none
  else
    match classifyExt (lowerS (suffixOf (baseName m))) with
    | some t => some (t, new_filename pid nm date (baseName m))
    | none => none

/-- The full member loop: the recognised members in archive order. -/
def extract_files (dirStr pid nm date : Str) (members : List Str) : List (FType × Str) :=
  members.filterMap (process_member dirStr pid nm date)

/-- One extracted-file record, as the EncounterFile model of
src/models.py restricted to the attributes the pipeline sets. -/
structure EncounterFile where
  file_type : FType
  filename : Str
deriving DecidableEq

/-- One patient encounter, as the PatientEncounters model of
src/models.py; it owns its file records. -/
structure PatientEncounters where
  name : Str
  patient_id : Str
  capture_date : Str
  encounter_files : List (FType × Str)
deriving DecidableEq

/-- One processed archive, as the ZipFile model of src/models.py; it
owns exactly one encounter. -/
structure ZipFile where
  zip_filename : Str
  md5_hash : Str
  patient_encounter : PatientEncounters
deriving DecidableEq

/-- The persistent store visible to the archive pipeline. -/
structure DB where
  zips : List ZipFile
deriving DecidableEq

/-- An input archive: its filename, its raw bytes, the member listing
its archive directory yields, and whether the archive opens at all (a
malformed archive raises BadZipFile on open). -/
structure Archive where
  name : Str
  content : List Nat
  members : List Str
  wellFormed : Bool
deriving DecidableEq

/-- Terminal states of one archive, section 4.4 of the specification:
skipped as a duplicate, committed and relocated to the processed area,
or failed and relocated to the error area. -/
inductive Outcome where
  | skipped
  | processedOk
  | movedToError
deriving DecidableEq

/-- The result of processing one archive: the store afterwards, the
terminal state of the archive file, and the files written to the
extraction areas during the attempt (these are never deleted by the
pipeline, so they remain on disk whatever the outcome). -/
structure PResult where
  db : DB
  outcome : Outcome
  writes : List (FType × Str)
deriving DecidableEq

/-- process_zip_file of src/main.py (lines 52 to 136).  The MD5 of the
archive bytes is fp applied to the content; commitOk tells whether the
transactional commit succeeds (a persistence failure raises there); the
except clause rolls the session back and routes the archive to the
error area.  An IndexError while indexing the split segment (fewer than
2 parts) is caught by the same except clause. -/
def process_zip_file (fp : List Nat → Str) (commitOk : Bool) (a : Archive)
    (db : DB) : PResult :=
  if (db.zips.find? fun z => z.md5_hash == fp a.content).isSome then
    ⟨db, .skipped, []⟩
  else if a.wellFormed = false then
    ⟨db, .movedToError, []⟩
  else
    match findQualifyingDir (allDirs a.members) with
    | none => ⟨db, .movedToError, []⟩
    | some pref =>
      if (splitOnC '_' (rstripC '/' (pref.getLastD []))).length < 2 then
        ⟨db, .movedToError, []⟩
      else if commitOk then
        ⟨⟨db.zips ++ [⟨a.name, fp a.content,
          ⟨(parse_dir_name (pref.getLastD [])).1,
           (parse_dir_name (pref.getLastD [])).2.1,
           (parse_dir_name (pref.getLastD [])).2.2,
           extract_files (joinWith (chars "/") pref)
             (parse_dir_name (pref.getLastD [])).2.1
             (parse_dir_name (pref.getLastD [])).1
             (parse_dir_name (pref.getLastD [])).2.2 a.members⟩⟩]⟩,
         .processedOk,
         extract_files (joinWith (chars "/") pref)
           (parse_dir_name (pref.getLastD [])).2.1
           (parse_dir_name (pref.getLastD [])).1
           (parse_dir_name (pref.getLastD [])).2.2 a.members⟩
      else
        ⟨db, .movedToError,
         extract_files (joinWith (chars "/") pref)
           (parse_dir_name (pref.getLastD [])).2.1
           (parse_dir_name (pref.getLastD [])).1
           (parse_dir_name (pref.getLastD [])).2.2 a.members⟩

/-! ## The OCR field extractors of src/ocr.py -/

/-- The capture of the diagnostic-result search on lines 36 to 38 of
src/ocr.py: re.search of the result-label marker followed by greedy
whitespace and a DOTALL greedy capture, then strip and first line.
Returns none when the page text has no match. -/
def dr_result (text : Str) : Option Str :=
  match dropAfterCI (chars "result dr:") text with
  | none => none
  | some rest => some (firstLine (strip (rest.dropWhile isWS)))

/-- The section-narrowing search on line 53 of src/ocr.py: the capture
group is everything after the first case-insensitive occurrence of the
section header and the greedy whitespace run following it. -/
def screeningSection (text : Str) : Option Str :=
  match dropAfterCI (chars "screening result") text with
  | none => none
  | some rest => some (rest.dropWhile isWS)

/-- Characters matched by the value class of the measurement pattern. -/
def isNumDot (c : Char) : Bool := c.isDigit || c = '.'

/-- Attempt one match of the measurement pattern (label, greedy
whitespace, hyphen, greedy whitespace, non-empty numeric run) at the
start of the text; on success return the captured numeric run and the
text that follows the whole match. -/
def matchVCDRAt (s : Str) : Option (Str × Str) :=
  if lowerS (s.take 4) = chars "vcdr" then
    match (s.drop 4).dropWhile isWS with
    | '-' :: r2 =>
      let r3 := r2.dropWhile isWS
      let digits := r3.takeWhile isNumDot
      if digits = [] then none else some (digits, r3.drop digits.length)
    | _ => none
  else none

/-- re.findall of the measurement pattern (line 58 of src/ocr.py):
scan left to right, and after each match resume after its end.  Fuel
bounds the scan by the text length, which always suffices because every
step consumes at least one character. -/
def findAllVCDRFuel : Nat → Str → List Str
  | 0, _ => []
  | _, [] => []
  | fuel + 1, c :: rest =>
    match matchVCDRAt (c :: rest) with
    | some (cap, after) => cap :: findAllVCDRFuel fuel after
    | none => findAllVCDRFuel fuel rest

/-- All captured measurement values of a text, in match order. -/
def findAllVCDR (s : Str) : List Str := findAllVCDRFuel s.length s

/-- Numeric value of a digit run, most significant digit first. -/
def digitsToNat (s : Str) : Nat :=
  s.foldl (fun acc c => acc * 10 + (c.toNat - 48)) 0

/-- The exact decimal reading of a float literal accepted from a
measurement capture: units + fracNum / 10 ^ fracLen.  Fractional parts
are kept trimmed of trailing zeros so that captures denoting the same
Python float compare equal.  Rounding to binary floating point is
immaterial to the claims, which only store these values and never
compute with them. -/
structure PyFloat where
  units : Nat
  fracNum : Nat
  fracLen : Nat
deriving DecidableEq

/-- Trim trailing zero digits from a fractional part given as its
numeric value and its digit count. -/
def trimFrac : Nat → Nat → Nat × Nat
  | n, 0 => (n, 0)
  | n, len + 1 => if n % 10 = 0 then trimFrac (n / 10) len else (n, len + 1)

/-- Python float applied to a capture of the measurement pattern (a
non-empty run over digits and the dot, the shape the value class
produces): conversion succeeds exactly when the run has at most one dot
and at least one digit, and raises ValueError otherwise (for example at
a doubled dot or a lone dot). -/
def pyFloatOfCapture (s : Str) : Option PyFloat :=
  if (s.countP fun c => c = '.') ≤ 1 ∧ s.any Char.isDigit then
    match splitOnC '.' s with
    | [intPart] => some ⟨digitsToNat intPart, 0, 0⟩
    | [intPart, fracPart] =>
      some ⟨digitsToNat intPart,
        (trimFrac (digitsToNat fracPart) fracPart.length).1,
        (trimFrac (digitsToNat fracPart) fracPart.length).2⟩
    | _ => none
  else none

/-- Attempt one match of the result-category pattern of line 70 of
src/ocr.py at the start of the text: one of the three accepted phrases
(case-insensitive, tried in alternation order), greedy whitespace, a
hyphen, greedy whitespace, then a greedy capture that stops at the end
of the line.  Returns the whole matched region (group 0). -/
def matchPhraseAt (s : Str) : Option Str :=
  let tryAlt : Str → Option Str := fun ph =>
    if lowerS (s.take ph.length) = ph then
      let consumed := s.take ph.length
      let r1 := s.drop ph.length
      let ws1 := r1.takeWhile isWS
      match r1.drop ws1.length with
      | '-' :: r2 =>
        let ws2 := r2.takeWhile isWS
        let tail := (r2.drop ws2.length).takeWhile fun c => c != '\n'
        some (consumed ++ ws1 ++ chars "-" ++ ws2 ++ tail)
      | _ => none
    else none
  (tryAlt (chars "no referable glaucoma")).orElse fun _ =>
    (tryAlt (chars "referable glaucoma")).orElse fun _ =>
      tryAlt (chars "referable glacuoma")

/-- Leftmost match of the result-category pattern in a text. -/
def findResultPhrase : Str → Option Str
  | [] => none
  | c :: rest =>
    match matchPhraseAt (c :: rest) with
    | some m => some m
    | none => findResultPhrase rest

/-- The values computed by extract_glaucoma_data of src/ocr.py (lines
46 to 72) before the store interaction.  The measurement fields hold
the float conversions of the captures. -/
structure GlaucomaVals where
  vcdr_right : Option PyFloat
  vcdr_left : Option PyFloat
  result : Str
deriving DecidableEq

/-- The pure part of extract_glaucoma_data: section narrowing, the
positional float conversion and assignment of the measurement captures,
the left-eye phrase disambiguation for a single capture, and the
result-category search with the not-available sentinel.  Returns none
when a float conversion raises ValueError, which aborts the page (the
exception propagates to the per-document handler of
process_pdf_files). -/
def glaucoma_fields (text : Str) : Option GlaucomaVals :=
  match screeningSection text with
  | none => some ⟨none, none, chars "N/A"⟩
  | some sec =>
    let vs := findAllVCDR sec
    let res : Str :=
      match findResultPhrase sec with
      | some m => strip m
      | none => chars "N/A"
    if 2 ≤ vs.length then
      match pyFloatOfCapture (vs.getD 0 []), pyFloatOfCapture (vs.getD 1 []) with
      | some r, some l => some ⟨some r, some l, res⟩
      | _, _ => none
    else if vs.length = 1 then
      if containsSub (chars "left eye") (lowerS sec) then
        match pyFloatOfCapture (vs.getD 0 []) with
        | some l => some ⟨none, some l, res⟩
        | none => none
      else
        match pyFloatOfCapture (vs.getD 0 []) with
        | some r => some ⟨some r, none, res⟩
        | none => none
    else some ⟨none, none, res⟩

/-- A stored diagnostic finding, the DiabeticRetinopathyReport model of
src/models.py. -/
structure DiabeticRetinopathyReport where
  patient_encounter_id : Nat
  result : Str
deriving DecidableEq

/-- A stored measurement finding, the GlaucomaReport model of
src/models.py (optional float measurements and a result string). -/
structure GlaucomaReport where
  patient_encounter_id : Nat
  vcdr_right : Option PyFloat
  vcdr_left : Option PyFloat
  result : Str
deriving DecidableEq

/-- The session state of the OCR run: committed rows and rows added in
the open transaction.  Queries see both parts, matching the autoflush
behaviour of the session used by src/ocr.py. -/
structure OcrSession where
  drPersisted : List DiabeticRetinopathyReport
  drPending : List DiabeticRetinopathyReport
  glPersisted : List GlaucomaReport
  glPending : List GlaucomaReport
deriving DecidableEq

/-- extract_dr_data of src/ocr.py (lines 34 to 44): on a match of the
result pattern, add a diagnostic finding unless the encounter already
has one visible to the session. -/
def extract_dr_data (text : Str) (encId : Nat) (s : OcrSession) : OcrSession :=
  match dr_result text with
  | none => s
  | some r =>
    if ((s.drPersisted ++ s.drPending).find? fun rep =>
        rep.patient_encounter_id == encId).isSome then s
    else
      ⟨s.drPersisted, s.drPending ++ [⟨encId, r⟩], s.glPersisted, s.glPending⟩

/-- extract_glaucoma_data of src/ocr.py (lines 46 to 88): compute the
fields (none when a float conversion raises ValueError, in which case
the exception escapes before the store is touched), then add a
measurement finding unless the encounter already has one visible to
the session.  The record is added even when the section or its
patterns were absent. -/
def extract_glaucoma_data (text : Str) (encId : Nat) (s : OcrSession) :
    Option OcrSession :=
  match glaucoma_fields text with
  | none => none
  | some g =>
    some (if ((s.glPersisted ++ s.glPending).find? fun rep =>
        rep.patient_encounter_id == encId).isSome then s
      else
        ⟨s.drPersisted, s.drPending, s.glPersisted,
         s.glPending ++ [⟨encId, g.vcdr_right, g.vcdr_left, g.result⟩]⟩)

/-- The per-page dispatch of process_pdf_files (lines 128 to 132 of
src/ocr.py): each extractor runs when its title marker occurs verbatim
in the page text.  Returns none when the measurement extractor raises
ValueError on the page. -/
def page_extract (text : Str) (encId : Nat) (s : OcrSession) : Option OcrSession :=
  if containsSub (chars "Glaucoma Screening Report") text then
    extract_glaucoma_data text encId
      (if containsSub (chars "Diabetic Retinopathy Report") text then
        extract_dr_data text encId s
      else s)
  else
    some (if containsSub (chars "Diabetic Retinopathy Report") text then
      extract_dr_data text encId s
    else s)

/-- The session-level events of OCR runs: one page processed for one
encounter, the per-document commit, or the rollback of the except
clause of process_pdf_files. -/
inductive OcrOp where
  | page (text : Str) (encId : Nat)
  | commit
  | rollback

/-- Apply one session event.  A page on which the measurement
extractor raises ValueError reaches the per-document except clause of
process_pdf_files, which rolls the session back. -/
def applyOcrOp : OcrOp → OcrSession → OcrSession
  | .page t e, s =>
    match page_extract t e s with
    | some s2 => s2
    | none => ⟨s.drPersisted, [], s.glPersisted, []⟩
  | .commit, s => ⟨s.drPersisted ++ s.drPending, [], s.glPersisted ++ s.glPending, []⟩
  | .rollback, s => ⟨s.drPersisted, [], s.glPersisted, []⟩

/-- Apply a sequence of session events, covering any number of OCR runs
over any documents and pages. -/
def applyOcrOps (ops : List OcrOp) (s : OcrSession) : OcrSession :=
  ops.foldl (fun st op => applyOcrOp op st) s

/-- The diagnostic findings of one encounter visible to the session. -/
def drCount (e : Nat) (s : OcrSession) : Nat :=
  (s.drPersisted ++ s.drPending).countP fun rep => rep.patient_encounter_id == e

/-! ## Supporting lemmas -/

theorem findSome?_eq_none_of_all {α β : Type} (f : α → Option β) (l : List α)
    (h : ∀ x ∈ l, f x = none) : l.findSome? f = none := by
  induction l with
  | nil => rfl
  | cons a l ih =>
    have ha := h a (by simp)
    simp only [List.findSome?_cons, ha]
    exact ih fun x hx => h x (by simp [hx])

theorem findSome?_append_left {α β : Type} (f : α → Option β) (l₁ l₂ : List α)
    (b : β) (h : l₁.findSome? f = some b) : (l₁ ++ l₂).findSome? f = some b := by
  induction l₁ with
  | nil => simp [List.findSome?_nil] at h
  | cons a l ih =>
    simp only [List.cons_append, List.findSome?_cons] at h ⊢
    cases hfa : f a with
    | some v => rw [hfa] at h; exact h
    | none => rw [hfa] at h; exact ih h

theorem findSome?_inv {α β : Type} {f : α → Option β} {l : List α} {b : β}
    (h : l.findSome? f = some b) : ∃ x ∈ l, f x = some b := by
  induction l with
  | nil => simp [List.findSome?_nil] at h
  | cons a l ih =>
    simp only [List.findSome?_cons] at h
    cases hfa : f a with
    | some v =>
      rw [hfa] at h
      have h' : some v = some b := h
      exact ⟨a, by simp, by rw [hfa]; exact h'⟩
    | none =>
      rw [hfa] at h
      have h' : l.findSome? f = some b := h
      obtain ⟨x, hx, hfx⟩ := ih h'
      exact ⟨x, by simp [hx], hfx⟩

theorem find?_append_none {α : Type} (p : α → Bool) (l₁ l₂ : List α)
    (h : l₁.find? p = none) : (l₁ ++ l₂).find? p = l₂.find? p := by
  induction l₁ with
  | nil => rfl
  | cons a l ih =>
    simp only [List.find?_cons] at h ⊢
    cases hpa : p a with
    | true => rw [hpa] at h; simp at h
    | false =>
      rw [hpa] at h
      have h' : l.find? p = none := h
      simp only [List.cons_append, List.find?_cons, hpa]
      exact ih h'

theorem dropWhile_idem {α : Type} (p : α → Bool) (l : List α) :
    (l.dropWhile p).dropWhile p = l.dropWhile p := by
  induction l with
  | nil => rfl
  | cons a l ih =>
    by_cases hpa : p a = true
    · simp [List.dropWhile_cons, hpa, ih]
    · simp [List.dropWhile_cons, hpa]

theorem strip_dropWhile (l : Str) : strip (l.dropWhile isWS) = strip l := by
  unfold strip
  rw [dropWhile_idem]

theorem splitOnC_ne_nil (sep : Char) (s : Str) : splitOnC sep s ≠ [] := by
  cases s with
  | nil => simp [splitOnC]
  | cons c rest =>
    unfold splitOnC
    cases h : splitOnC sep rest with
    | nil => simp
    | cons p ps =>
      by_cases hc : c = sep <;> simp [hc]

theorem splitOnC_no_sep (sep : Char) (s : Str) (h : sep ∉ s) :
    splitOnC sep s = [s] := by
  induction s with
  | nil => rfl
  | cons c rest ih =>
    have hc : ¬ c = sep := fun hcs => h (by simp [hcs])
    have hrest : sep ∉ rest := fun hm => h (by simp [hm])
    unfold splitOnC
    rw [ih hrest]
    simp [hc]

theorem splitOnC_sep_cons (sep : Char) (p t : Str) (h : sep ∉ p) :
    splitOnC sep (p ++ sep :: t) = p :: splitOnC sep t := by
  induction p with
  | nil =>
    simp only [List.nil_append]
    simp only [splitOnC]
    cases ht : splitOnC sep t with
    | nil => exact absurd ht (splitOnC_ne_nil sep t)
    | cons q qs => simp
  | cons c p' ih =>
    have hc : ¬ c = sep := fun hcs => h (by simp [hcs])
    have hp' : sep ∉ p' := fun hm => h (by simp [hm])
    simp only [List.cons_append]
    simp only [splitOnC]
    rw [ih hp']
    simp [hc]

theorem splitOnC_joinWith (sep : Char) (parts : List Str) (hne : parts ≠ [])
    (h : ∀ p ∈ parts, sep ∉ p) : splitOnC sep (joinWith [sep] parts) = parts := by
  induction parts with
  | nil => exact absurd rfl hne
  | cons p ps ih =>
    cases ps with
    | nil =>
      show splitOnC sep (joinWith [sep] [p]) = [p]
      unfold joinWith
      exact splitOnC_no_sep sep p (h p (by simp))
    | cons q qs =>
      show splitOnC sep (p ++ [sep] ++ joinWith [sep] (q :: qs)) = p :: q :: qs
      rw [List.append_assoc, List.singleton_append,
        splitOnC_sep_cons sep p _ (h p (by simp)),
        ih (by simp) fun r hr => h r (by simp [hr])]

theorem mem_joinWith {c : Char} {sep : Str} {parts : List Str}
    (h : c ∈ joinWith sep parts) : c ∈ sep ∨ ∃ p ∈ parts, c ∈ p := by
  induction parts with
  | nil => simp [joinWith] at h
  | cons p ps ih =>
    cases ps with
    | nil =>
      right
      exact ⟨p, by simp, h⟩
    | cons q qs =>
      have h' : c ∈ p ++ sep ++ joinWith sep (q :: qs) := h
      rw [List.mem_append, List.mem_append] at h'
      rcases h' with (hp | hsep) | hrest
      · exact Or.inr ⟨p, by simp, hp⟩
      · exact Or.inl hsep
      · rcases ih hrest with hs | ⟨r, hr, hcr⟩
        · exact Or.inl hs
        · exact Or.inr ⟨r, by simp [hr], hcr⟩

theorem rstripC_eq_self_of_not_mem (a : Char) (s : Str) (h : a ∉ s) :
    rstripC a s = s := by
  unfold rstripC
  have : s.reverse.dropWhile (fun c => c = a) = s.reverse := by
    cases hr : s.reverse with
    | nil => rfl
    | cons c rest =>
      have hc : c ∈ s := by
        have : c ∈ s.reverse := by rw [hr]; simp
        simpa using this
      have : ¬ (c = a) := fun hca => h (hca ▸ hc)
      simp [List.dropWhile_cons, this]
  rw [this, List.reverse_reverse]

theorem splitOnC_pieces_no_sep (sep : Char) (s : Str) :
    ∀ piece ∈ splitOnC sep s, sep ∉ piece := by
  induction s with
  | nil =>
    intro piece hp
    simp [splitOnC] at hp
    simp [hp]
  | cons c rest ih =>
    intro piece hp
    unfold splitOnC at hp
    cases hrest : splitOnC sep rest with
    | nil => exact absurd hrest (splitOnC_ne_nil sep rest)
    | cons p ps =>
      rw [hrest] at hp
      by_cases hc : c = sep
      · simp only [hc, if_pos rfl] at hp
        rcases List.mem_cons.mp hp with h1 | h2
        · simp [h1]
        · exact ih piece (by rw [hrest]; exact h2)
      · simp only [if_neg hc] at hp
        rcases List.mem_cons.mp hp with h1 | h2
        · subst h1
          intro hmem
          rcases List.mem_cons.mp hmem with h3 | h4
          · exact hc h3.symm
          · exact ih p (by rw [hrest]; simp) h4
        · exact ih piece (by rw [hrest]; simp [h2])

theorem replaceC_eq_self {a b : Char} {s : Str} (h : a ∉ s) :
    replaceC a b s = s := by
  unfold replaceC
  induction s with
  | nil => rfl
  | cons c rest ih =>
    have hc : ¬ (c = a) := fun hca => h (by simp [hca])
    simp only [List.map_cons, if_neg hc]
    rw [ih fun hm => h (by simp [hm])]

theorem baseName_no_slash (p : Str) : '/' ∉ baseName p := by
  unfold baseName
  cases hl : (pathParts p).getLast? with
  | none =>
    rw [List.getLastD_eq_getLast?, hl]
    simp
  | some piece =>
    rw [List.getLastD_eq_getLast?, hl]
    have hmem : piece ∈ pathParts p := List.mem_of_getLast?_eq_some hl
    have hmem' : piece ∈ splitOnC '/' p := List.mem_of_mem_filter hmem
    simpa using splitOnC_pieces_no_sep '/' p piece hmem'

theorem dedupFirst_snoc (l : List (List Str)) (x : List Str) :
    dedupFirst (l ++ [x]) = dedupFirst l ++ if x ∈ l then [] else [x] := by
  induction l with
  | nil => simp [dedupFirst]
  | cons a l ih =>
    simp only [List.cons_append]
    unfold dedupFirst
    rw [ih, List.filter_append]
    by_cases hxa : x = a
    · subst hxa
      have h2 : (if x ∈ l then ([] : List (List Str)) else [x]).filter
          (fun y => y ≠ x) = [] := by
        by_cases hxl : x ∈ l <;> simp [hxl]
      rw [h2]
      simp [dedupFirst]
    · have h2 : (if x ∈ l then ([] : List (List Str)) else [x]).filter
          (fun y => y ≠ a) = if x ∈ a :: l then [] else [x] := by
        by_cases hxl : x ∈ l
        · simp [hxl, List.mem_cons]
        · have : x ∈ a :: l ↔ False := by simp [hxa, hxl]
          simp [hxl, this, hxa]
      rw [h2]
      simp [dedupFirst]

theorem lowerS_take (n : Nat) (s : Str) : lowerS (s.take n) = (lowerS s).take n := by
  unfold lowerS
  rw [List.map_take]

theorem dropAfterCI_eq_none (nd : Str) (s : Str)
    (h : containsSub nd (lowerS s) = false) : dropAfterCI nd s = none := by
  induction s with
  | nil =>
    have : ¬ (nd = []) := by
      intro hnd
      subst hnd
      simp [containsSub, lowerS] at h
    simp [dropAfterCI, this]
  | cons c rest ih =>
    have hcons : containsSub nd (lowerS (c :: rest)) =
        (decide ((lowerS (c :: rest)).take nd.length = nd) ||
          containsSub nd (lowerS rest)) := by
      show containsSub nd (Char.toLower c :: lowerS rest) = _
      rfl
    rw [hcons] at h
    have h1 : ¬ ((lowerS (c :: rest)).take nd.length = nd) := by
      intro heq
      simp [heq] at h
    have h2 : containsSub nd (lowerS rest) = false := by
      cases hcr : containsSub nd (lowerS rest)
      · rfl
      · rw [hcr] at h; simp at h
    unfold dropAfterCI
    rw [lowerS_take] at *
    simp only [if_neg h1]
    exact ih h2

/-! ## Claim theorems -/

/-- C4: the convention parser maps the qualifying segment
"Jane Doe_12345_20240101" to name "Jane Doe", identifier "12345" and
date "20240101"; in general, for a segment assembled from
underscore-free parts, the last part is the date, the second-to-last
the identifier, and the remaining leading parts joined with spaces the
name. -/
theorem c4_parse_convention :
    parse_dir_name (chars "Jane Doe_12345_20240101") =
      (chars "Jane Doe", chars "12345", chars "20240101") ∧
    ∀ parts : List Str, 2 ≤ parts.length →
      (∀ p ∈ parts, '_' ∉ p) → (∀ p ∈ parts, '/' ∉ p) →
      parse_dir_name (joinWith (chars "_") parts) =
        (joinWith (chars " ") parts.dropLast.dropLast,
         parts.dropLast.getLastD [], parts.getLastD []) := by
  constructor
  · decide
  · intro parts hlen hus hsl
    have hne : parts ≠ [] := by
      intro hp
      subst hp
      simp at hlen
    have hnosl : '/' ∉ joinWith (chars "_") parts := by
      intro hmem
      rcases mem_joinWith hmem with hs | ⟨p, hp, hcp⟩
      · simp [chars] at hs
      · exact hsl p hp hcp
    have hsep : chars "_" = ['_'] := rfl
    simp only [parse_dir_name]
    rw [rstripC_eq_self_of_not_mem _ _ hnosl, hsep,
      splitOnC_joinWith '_' parts hne hus]

/-- Witness for C4 at a concrete four-part segment. -/
theorem c4_parse_convention_witness :
    parse_dir_name (joinWith (chars "_")
        [chars "Jane", chars "Doe", chars "12345", chars "20240101"]) =
      (joinWith (chars " ")
        ([chars "Jane", chars "Doe", chars "12345", chars "20240101"].dropLast.dropLast),
       [chars "Jane", chars "Doe", chars "12345", chars "20240101"].dropLast.getLastD [],
       [chars "Jane", chars "Doe", chars "12345", chars "20240101"].getLastD []) :=
  c4_parse_convention.2
    [chars "Jane", chars "Doe", chars "12345", chars "20240101"]
    (by decide) (by decide) (by decide)

/-- C5: the generated destination filename is the identifier, the name
with spaces turned to underscores, the date and the original basename
of the member, joined by underscores; on the specification instance it
is exactly "12345_Jane_Doe_20240101_scan.jpg". -/
theorem c5_generated_filename :
    new_filename (chars "12345") (chars "Jane Doe") (chars "20240101")
        (chars "scan.jpg") =
      chars "12345_Jane_Doe_20240101_scan.jpg" ∧
    ∀ dirStr pid nm date m t fn,
      process_member dirStr pid nm date m = some (t, fn) →
      fn = pid ++ chars "_" ++ replaceC ' ' '_' nm ++ chars "_" ++ date ++
        chars "_" ++ baseName m := by
  constructor
  · decide
  · intro dirStr pid nm date m t fn h
    simp only [process_member] at h
    split at h
    · exact absurd h (by simp)
    · split at h
      · exact absurd h (by simp)
      · split at h
        · rename_i t' heq
          have h' : fn = new_filename pid nm date (baseName m) := by
            have := (Option.some.injEq _ _).mp h
            exact (congrArg Prod.snd this).symm
          rw [h']
          simp only [new_filename]
          rw [replaceC_eq_self (baseName_no_slash m)]
        · exact absurd h (by simp)

/-- Witness for C5 through the member loop at a concrete member. -/
theorem c5_generated_filename_witness :
    chars "12345_Jane_Doe_20240101_scan.jpg" =
      chars "12345" ++ chars "_" ++ replaceC ' ' '_' (chars "Jane Doe") ++
        chars "_" ++ chars "20240101" ++ chars "_" ++
        baseName (chars "A_B_C/scan.jpg") :=
  c5_generated_filename.2 (chars "A_B_C") (chars "12345") (chars "Jane Doe")
    (chars "20240101") (chars "A_B_C/scan.jpg") FType.image
    (chars "12345_Jane_Doe_20240101_scan.jpg") (by decide)

/-- C7: the diagnostic extractor takes what follows the result-label
marker, trims surrounding whitespace, and keeps only the first line; on
the specification instance the extracted result is "Moderate NPDR". -/
theorem c7_dr_result_first_line :
    dr_result (chars "Result DR:\nModerate NPDR\nOther text") =
      some (chars "Moderate NPDR") ∧
    ∀ text rest, dropAfterCI (chars "result dr:") text = some rest →
      dr_result text = some (firstLine (strip rest)) := by
  constructor
  · decide
  · intro text rest h
    simp only [dr_result, h]
    rw [strip_dropWhile]

/-- Witness for C7 at a concrete page text. -/
theorem c7_dr_result_first_line_witness :
    dr_result (chars "page Result DR: Mild NPDR\nrest") =
      some (firstLine (strip (chars " Mild NPDR\nrest"))) :=
  c7_dr_result_first_line.2 (chars "page Result DR: Mild NPDR\nrest")
    (chars " Mild NPDR\nrest") (by decide)

/-- C1 counterexample: in the archive with the single member
"a_b/c_d/file.jpg" no internal directory segment splits into 3 or more
underscore-delimited parts, yet the directory "a_b/c_d" qualifies
(the code counts underscores over the slash-joined prefix string) and
processing succeeds instead of failing with the no-qualifying-directory
condition. -/
theorem c1_counterexample :
    allDirs [chars "a_b/c_d/file.jpg"] = [[chars "a_b", chars "c_d"]] ∧
    (splitOnC '_' (chars "a_b")).length < 3 ∧
    (splitOnC '_' (chars "c_d")).length < 3 ∧
    findQualifyingDir (allDirs [chars "a_b/c_d/file.jpg"]) =
      some [chars "a_b", chars "c_d"] ∧
    (process_zip_file (fun _ => []) true
        ⟨chars "x.zip", [0], [chars "a_b/c_d/file.jpg"], true⟩ ⟨[]⟩).outcome =
      Outcome.processedOk := by
  refine ⟨by decide, by decide, by decide, by decide, by decide⟩

/-- C1 amended: a candidate prefix qualifies by the underscore count of
its slash-joined string, in which underscores accumulate across parent
segments; consequently, when no prefix of any internal directory has a
joined string with at least 3 underscore-delimited parts, processing
fails and the not-yet-seen, readable archive is moved to the error area
with no records persisted and no files written. -/
theorem c1_amended_joined_count (fp : List Nat → Str) (cOk : Bool)
    (a : Archive) (db : DB) :
    (∀ pref, findQualifyingDir (allDirs a.members) = some pref →
        3 ≤ (splitOnC '_' (joinWith (chars "/") pref)).length) ∧
    ((∀ d ∈ allDirs a.members, ∀ i, i < d.length →
        (splitOnC '_' (joinWith (chars "/") (d.take (i + 1)))).length < 3) →
      (db.zips.find? fun z => z.md5_hash == fp a.content) = none →
      a.wellFormed = true →
      process_zip_file fp cOk a db = ⟨db, .movedToError, []⟩) := by
  constructor
  · intro pref h
    obtain ⟨d, hd, hfd⟩ := findSome?_inv h
    simp only [firstQualDir] at hfd
    obtain ⟨i, hi, hif⟩ := findSome?_inv hfd
    by_cases hc : 3 ≤ (splitOnC '_' (joinWith (chars "/") (d.take (i + 1)))).length
    · rw [if_pos hc] at hif
      have : d.take (i + 1) = pref := (Option.some.injEq _ _).mp hif
      rw [← this]
      exact hc
    · rw [if_neg hc] at hif
      exact absurd hif (by simp)
  · intro hall hfind hwf
    have hnone : findQualifyingDir (allDirs a.members) = none := by
      apply findSome?_eq_none_of_all
      intro d hd
      apply findSome?_eq_none_of_all
      intro i hi
      have hilt : i < d.length := List.mem_range.mp hi
      have hlt := hall d hd i hilt
      simp only []
      rw [if_neg (by omega)]
    simp [process_zip_file, hfind, hnone, hwf]

/-- Witness for the amended C1 at an archive with no qualifying
prefix. -/
theorem c1_amended_joined_count_witness :
    process_zip_file (fun _ => []) true
        ⟨chars "z.zip", [0], [chars "ab/c.jpg"], true⟩ ⟨[]⟩ =
      ⟨⟨[]⟩, .movedToError, []⟩ :=
  (c1_amended_joined_count (fun _ => []) true
      ⟨chars "z.zip", [0], [chars "ab/c.jpg"], true⟩ ⟨[]⟩).2
    (by decide) (by decide) (by decide)

/-- Computation lemma: the duplicate-fingerprint branch of
process_zip_file. -/
theorem process_zip_skip (fp : List Nat → Str) (cOk : Bool) (a : Archive)
    (db : DB)
    (h1 : (db.zips.find? fun z => z.md5_hash == fp a.content).isSome = true) :
    process_zip_file fp cOk a db = ⟨db, .skipped, []⟩ := by
  unfold process_zip_file
  rw [if_pos h1]

/-- Computation lemma: the commit branch of process_zip_file, reached
when the archive is new, readable, a qualifying directory exists and
its final segment splits into at least two parts. -/
theorem process_zip_main (fp : List Nat → Str) (cOk : Bool) (a : Archive)
    (db : DB) (pref : List Str)
    (h1 : (db.zips.find? fun z => z.md5_hash == fp a.content) = none)
    (h2 : a.wellFormed = true)
    (hq : findQualifyingDir (allDirs a.members) = some pref)
    (h3 : ¬ (splitOnC '_' (rstripC '/' (pref.getLastD []))).length < 2) :
    process_zip_file fp cOk a db =
      if cOk then
        ⟨⟨db.zips ++ [⟨a.name, fp a.content,
          ⟨(parse_dir_name (pref.getLastD [])).1,
           (parse_dir_name (pref.getLastD [])).2.1,
           (parse_dir_name (pref.getLastD [])).2.2,
           extract_files (joinWith (chars "/") pref)
             (parse_dir_name (pref.getLastD [])).2.1
             (parse_dir_name (pref.getLastD [])).1
             (parse_dir_name (pref.getLastD [])).2.2 a.members⟩⟩]⟩,
         .processedOk,
         extract_files (joinWith (chars "/") pref)
           (parse_dir_name (pref.getLastD [])).2.1
           (parse_dir_name (pref.getLastD [])).1
           (parse_dir_name (pref.getLastD [])).2.2 a.members⟩
      else
        ⟨db, .movedToError,
         extract_files (joinWith (chars "/") pref)
           (parse_dir_name (pref.getLastD [])).2.1
           (parse_dir_name (pref.getLastD [])).1
           (parse_dir_name (pref.getLastD [])).2.2 a.members⟩ := by
  unfold process_zip_file
  split
  · rename_i hc
    rw [h1] at hc
    simp at hc
  · split
    · rename_i hwf
      rw [h2] at hwf
      simp at hwf
    · split
      · rename_i hm
        rw [hq] at hm
        simp at hm
      · rename_i pref' hm
        rw [hq] at hm
        have hp : pref' = pref := by
          have := (Option.some.injEq _ _).mp hm
          exact this.symm
        subst hp
        split
        · rename_i hlen
          exact absurd hlen h3
        · rfl

/-- Computation lemma: an unreadable archive is routed to the error
area with the store unchanged. -/
theorem process_zip_badzip (fp : List Nat → Str) (cOk : Bool) (a : Archive)
    (db : DB)
    (hfn : (db.zips.find? fun z => z.md5_hash == fp a.content) = none)
    (h2 : a.wellFormed = false) :
    process_zip_file fp cOk a db = ⟨db, .movedToError, []⟩ := by
  unfold process_zip_file
  split
  · rename_i hc
    rw [hfn] at hc
    simp at hc
  · rfl

/-- Computation lemma: with no qualifying directory the archive is
routed to the error area with the store unchanged. -/
theorem process_zip_nodir (fp : List Nat → Str) (cOk : Bool) (a : Archive)
    (db : DB)
    (hfn : (db.zips.find? fun z => z.md5_hash == fp a.content) = none)
    (hq : findQualifyingDir (allDirs a.members) = none) :
    process_zip_file fp cOk a db = ⟨db, .movedToError, []⟩ := by
  unfold process_zip_file
  split
  · rename_i hc
    rw [hfn] at hc
    simp at hc
  · split
    · rfl
    · rw [hq]

/-- Computation lemma: a qualifying directory whose final segment
splits into fewer than two parts aborts with the index error of the
convention decomposition and the archive is routed to the error area
with the store unchanged. -/
theorem process_zip_shortseg (fp : List Nat → Str) (cOk : Bool) (a : Archive)
    (db : DB) (pref : List Str)
    (hfn : (db.zips.find? fun z => z.md5_hash == fp a.content) = none)
    (hq : findQualifyingDir (allDirs a.members) = some pref)
    (h3 : (splitOnC '_' (rstripC '/' (pref.getLastD []))).length < 2) :
    process_zip_file fp cOk a db = ⟨db, .movedToError, []⟩ := by
  unfold process_zip_file
  split
  · rename_i hc
    rw [hfn] at hc
    simp at hc
  · split
    · rfl
    · split
      · rfl
      · rename_i pref2 hm
        rw [hq] at hm
        have hp : pref2 = pref := ((Option.some.injEq _ _).mp hm).symm
        subst hp
        split
        · rfl
        · rename_i hlen
          exact absurd h3 hlen

/-- C2: after a first successful run exactly one archive record (with
its one owned encounter and file records) exists for the content
fingerprint, and any later submission of byte-identical archive bytes
is detected by the fingerprint lookup and skipped without creating any
record or writing any file. -/
theorem c2_idempotent (fp : List Nat → Str) (cOk : Bool) (a : Archive)
    (db : DB) (h : (process_zip_file fp true a db).outcome = .processedOk) :
    (((process_zip_file fp true a db).db.zips.filter fun z =>
        z.md5_hash == fp a.content).length = 1) ∧
    ∀ b : Archive, b.content = a.content →
      process_zip_file fp cOk b ((process_zip_file fp true a db).db) =
        ⟨(process_zip_file fp true a db).db, .skipped, []⟩ := by
  by_cases h1 : (db.zips.find? fun z => z.md5_hash == fp a.content).isSome = true
  · rw [process_zip_skip fp true a db h1] at h
    exact absurd h (by simp)
  · have hfn : (db.zips.find? fun z => z.md5_hash == fp a.content) = none :=
      Option.not_isSome_iff_eq_none.mp h1
    by_cases h2 : a.wellFormed = true
    · cases hq : findQualifyingDir (allDirs a.members) with
      | none =>
        rw [process_zip_nodir fp true a db hfn hq] at h
        exact absurd h (by simp)
      | some pref =>
        by_cases h3 : (splitOnC '_' (rstripC '/' (pref.getLastD []))).length < 2
        · rw [process_zip_shortseg fp true a db pref hfn hq h3] at h
          exact absurd h (by simp)
        · have hres := process_zip_main fp true a db pref hfn h2 hq h3
          rw [if_pos rfl] at hres
          have hfilter : (db.zips.filter fun z => z.md5_hash == fp a.content) = [] := by
            rw [List.filter_eq_nil_iff]
            intro z hz
            exact List.find?_eq_none.mp hfn z hz
          constructor
          · rw [hres]
            simp [List.filter_append, hfilter]
          · intro b hb
            have hcontent : fp b.content = fp a.content := by rw [hb]
            have hfound : (((process_zip_file fp true a db).db.zips.find? fun z =>
                z.md5_hash == fp b.content)).isSome = true := by
              rw [hres, hcontent]
              show ((db.zips ++ [_]).find? _).isSome = true
              rw [find?_append_none _ _ _ hfn]
              simp
            exact process_zip_skip fp cOk b _ hfound
    · have h2' : a.wellFormed = false := by
        cases hwf : a.wellFormed
        · rfl
        · exact absurd hwf h2
      rw [process_zip_badzip fp true a db hfn h2'] at h
      exact absurd h (by simp)

/-- Witness for C2 at a concrete archive processed into an empty
store, then resubmitted with the same bytes under another name. -/
theorem c2_idempotent_witness :
    (((process_zip_file (fun _ => chars "h") true
        ⟨chars "a.zip", [1, 2], [chars "A_B_C/scan.jpg"], true⟩ ⟨[]⟩).db.zips.filter
          fun z => z.md5_hash == (fun _ => chars "h") [1, 2]).length = 1) ∧
    process_zip_file (fun _ => chars "h") false
        ⟨chars "b.zip", [1, 2], [chars "other"], true⟩
        ((process_zip_file (fun _ => chars "h") true
          ⟨chars "a.zip", [1, 2], [chars "A_B_C/scan.jpg"], true⟩ ⟨[]⟩).db) =
      ⟨(process_zip_file (fun _ => chars "h") true
          ⟨chars "a.zip", [1, 2], [chars "A_B_C/scan.jpg"], true⟩ ⟨[]⟩).db,
        .skipped, []⟩ := by
  have := c2_idempotent (fun _ => chars "h") false
    ⟨chars "a.zip", [1, 2], [chars "A_B_C/scan.jpg"], true⟩ ⟨[]⟩ (by decide)
  exact ⟨this.1, this.2 ⟨chars "b.zip", [1, 2], [chars "other"], true⟩ rfl⟩

/-- C3: whenever processing ends in the error area (malformed archive,
no qualifying directory, a convention segment too short to index, or a
persistence failure at commit) the open transaction is rolled back so
the store is unchanged; in the persistence-failure case in particular
the archive is routed to the error area while the files already written
to the extraction areas during the run are reported as written and are
never deleted. -/
theorem c3_rollback_on_error (fp : List Nat → Str) (cOk : Bool) (a : Archive)
    (db : DB) :
    ((process_zip_file fp cOk a db).outcome = .movedToError →
      (process_zip_file fp cOk a db).db = db) ∧
    (∀ pref, (db.zips.find? fun z => z.md5_hash == fp a.content) = none →
      a.wellFormed = true →
      findQualifyingDir (allDirs a.members) = some pref →
      2 ≤ (splitOnC '_' (rstripC '/' (pref.getLastD []))).length →
      process_zip_file fp false a db =
        ⟨db, .movedToError,
          extract_files (joinWith (chars "/") pref)
            (parse_dir_name (pref.getLastD [])).2.1
            (parse_dir_name (pref.getLastD [])).1
            (parse_dir_name (pref.getLastD [])).2.2 a.members⟩) := by
  constructor
  · intro h
    cases hr : process_zip_file fp cOk a db with
    | mk db' out wr =>
      rw [hr] at h
      have hout : out = .movedToError := h
      show db' = db
      unfold process_zip_file at hr
      split at hr
      · injection hr with e1 e2 e3
        rw [← e2] at hout
        exact absurd hout (by simp)
      · split at hr
        · injection hr with e1 e2 e3
          exact e1.symm
        · split at hr
          · injection hr with e1 e2 e3
            exact e1.symm
          · split at hr
            · injection hr with e1 e2 e3
              exact e1.symm
            · split at hr
              · injection hr with e1 e2 e3
                rw [← e2] at hout
                exact absurd hout (by simp)
              · injection hr with e1 e2 e3
                exact e1.symm
  · intro pref h1 h2 h3 h4
    have h4' : ¬ ((splitOnC '_' (rstripC '/' (pref.getLastD []))).length < 2) := by
      omega
    rw [process_zip_main fp false a db pref h1 h2 h3 h4']
    simp

/-- Witness for C3 at a concrete archive whose commit fails. -/
theorem c3_rollback_on_error_witness :
    process_zip_file (fun _ => chars "h") false
        ⟨chars "a.zip", [1, 2], [chars "A_B_C/scan.jpg"], true⟩ ⟨[]⟩ =
      ⟨⟨[]⟩, .movedToError,
        extract_files (joinWith (chars "/") [chars "A_B_C"])
          (parse_dir_name ([chars "A_B_C"].getLastD [])).2.1
          (parse_dir_name ([chars "A_B_C"].getLastD [])).1
          (parse_dir_name ([chars "A_B_C"].getLastD [])).2.2
          [chars "A_B_C/scan.jpg"]⟩ :=
  (c3_rollback_on_error (fun _ => chars "h") false
      ⟨chars "a.zip", [1, 2], [chars "A_B_C/scan.jpg"], true⟩ ⟨[]⟩).2
    [chars "A_B_C"] (by decide) (by decide) (by decide) (by decide)

/-- C9: a non-directory member under the qualifying directory whose
lowercased extension is not a recognised image or document extension is
silently skipped by the member loop (no file written, no record
created) and its presence changes nothing about the processing of the
archive: the store, the outcome and the files written are the same
with and without it. -/
theorem c9_unknown_ext_skipped (fp : List Nat → Str) (cOk : Bool) (a : Archive)
    (db : DB) (m : Str) (pref : List Str)
    (hq : findQualifyingDir (allDirs a.members) = some pref)
    (hnd : isDirEntry m = false)
    (hund : (joinWith (chars "/") pref).isPrefixOf (strPath m) = true)
    (hext : classifyExt (lowerS (suffixOf (baseName m))) = none) :
    (∀ dirStr pid nm date, process_member dirStr pid nm date m = none) ∧
    process_zip_file fp cOk ⟨a.name, a.content, a.members ++ [m], a.wellFormed⟩ db =
      process_zip_file fp cOk a db := by
  have hpm : ∀ dirStr pid nm date, process_member dirStr pid nm date m = none := by
    intro dirStr pid nm date
    unfold process_member
    split
    · rfl
    · split
      · rfl
      · rw [hext]
  have hdirs : findQualifyingDir (allDirs (a.members ++ [m])) = some pref := by
    have hsplit : allDirs (a.members ++ [m]) =
        allDirs a.members ++
          if ((pathParts m).dropLast) ∈
              (a.members.map fun p => (pathParts p).dropLast) then []
          else [(pathParts m).dropLast] := by
      unfold allDirs
      rw [List.map_append]
      simp only [List.map_cons, List.map_nil]
      exact dedupFirst_snoc _ _
    rw [hsplit]
    by_cases hx : ((pathParts m).dropLast) ∈
        (a.members.map fun p => (pathParts p).dropLast)
    · rw [if_pos hx, List.append_nil]
      exact hq
    · rw [if_neg hx]
      exact findSome?_append_left _ _ _ _ hq
  have hef : ∀ dirStr pid nm date,
      extract_files dirStr pid nm date (a.members ++ [m]) =
        extract_files dirStr pid nm date a.members := by
    intro dirStr pid nm date
    unfold extract_files
    rw [List.filterMap_append]
    rw [show (List.filterMap (process_member dirStr pid nm date) [m]) = [] by
      simp [List.filterMap_cons, hpm dirStr pid nm date]]
    rw [List.append_nil]
  refine ⟨hpm, ?_⟩
  by_cases h1 : (db.zips.find? fun z => z.md5_hash == fp a.content).isSome = true
  · rw [process_zip_skip fp cOk a db h1,
      process_zip_skip fp cOk ⟨a.name, a.content, a.members ++ [m], a.wellFormed⟩ db h1]
  · have hfn : (db.zips.find? fun z => z.md5_hash == fp a.content) = none :=
      Option.not_isSome_iff_eq_none.mp h1
    by_cases h2 : a.wellFormed = true
    · by_cases h3 : (splitOnC '_' (rstripC '/' (pref.getLastD []))).length < 2
      · rw [process_zip_shortseg fp cOk a db pref hfn hq h3,
          process_zip_shortseg fp cOk ⟨a.name, a.content, a.members ++ [m], a.wellFormed⟩
            db pref hfn hdirs h3]
      · have e1 := process_zip_main fp cOk a db pref hfn h2 hq h3
        have e2 := process_zip_main fp cOk
          ⟨a.name, a.content, a.members ++ [m], a.wellFormed⟩ db pref hfn h2 hdirs h3
        rw [e1, e2]
        dsimp only
        rw [hef]
    · have h2' : a.wellFormed = false := by
        cases hwf : a.wellFormed
        · rfl
        · exact absurd hwf h2
      rw [process_zip_badzip fp cOk a db hfn h2',
        process_zip_badzip fp cOk ⟨a.name, a.content, a.members ++ [m], a.wellFormed⟩
          db hfn h2']

/-- Witness for C9: adding a text member under the qualifying
directory leaves the processing result unchanged. -/
theorem c9_unknown_ext_skipped_witness :
    process_zip_file (fun _ => chars "h") true
        ⟨chars "z.zip", [1], [chars "A_B_C/img.jpg", chars "A_B_C/notes.txt"], true⟩
        ⟨[]⟩ =
      process_zip_file (fun _ => chars "h") true
        ⟨chars "z.zip", [1], [chars "A_B_C/img.jpg"], true⟩ ⟨[]⟩ :=
  (c9_unknown_ext_skipped (fun _ => chars "h") true
      ⟨chars "z.zip", [1], [chars "A_B_C/img.jpg"], true⟩ ⟨[]⟩
      (chars "A_B_C/notes.txt") [chars "A_B_C"]
      (by decide) (by decide) (by decide) (by decide)).2

/-- C6 counterexample: the value class of the measurement pattern can
capture a doubled-dot run such as 0..4; at the page below the section
holds two label+numeric matches, yet the float conversion of the first
capture raises ValueError, so the extractor aborts with nothing
assigned (the document is then rolled back), refuting the
unconditional positional assignment. -/
theorem c6_float_value_error :
    screeningSection (chars "SCREENING RESULT VCDR - 0..4 VCDR - 0.6") =
      some (chars "VCDR - 0..4 VCDR - 0.6") ∧
    findAllVCDR (chars "VCDR - 0..4 VCDR - 0.6") =
      [chars "0..4", chars "0.6"] ∧
    pyFloatOfCapture (chars "0..4") = none ∧
    glaucoma_fields (chars "SCREENING RESULT VCDR - 0..4 VCDR - 0.6") = none ∧
    extract_glaucoma_data (chars "SCREENING RESULT VCDR - 0..4 VCDR - 0.6") 1
      ⟨[], [], [], []⟩ = none := by
  refine ⟨by decide, by decide, by decide, by decide, by decide⟩

/-- C6 amended: every measurement assignment goes through the float
conversion of its capture; a capture failing the conversion (more than
one dot, or no digit) raises ValueError so the page aborts with
nothing assigned.  When the relevant conversions succeed, two or more
matches are assigned positionally (first converted value to the right
measurement, second to the left), a single converted value goes to the
left measurement exactly when the section mentions the left-eye phrase
and to the right otherwise, and with no match both remain unset.  The
two concrete instances of the specification evaluate as stated, with
0.4, 0.6 and 0.5 read as exact decimals. -/
theorem c6_measurement_assignment :
    (∀ text sec, screeningSection text = some sec →
      (∀ r l, 2 ≤ (findAllVCDR sec).length →
        pyFloatOfCapture ((findAllVCDR sec).getD 0 []) = some r →
        pyFloatOfCapture ((findAllVCDR sec).getD 1 []) = some l →
        (glaucoma_fields text).map GlaucomaVals.vcdr_right = some (some r) ∧
        (glaucoma_fields text).map GlaucomaVals.vcdr_left = some (some l)) ∧
      (2 ≤ (findAllVCDR sec).length →
        (pyFloatOfCapture ((findAllVCDR sec).getD 0 []) = none ∨
         pyFloatOfCapture ((findAllVCDR sec).getD 1 []) = none) →
        glaucoma_fields text = none) ∧
      (∀ v, (findAllVCDR sec).length = 1 →
        pyFloatOfCapture ((findAllVCDR sec).getD 0 []) = some v →
        (containsSub (chars "left eye") (lowerS sec) = true →
          (glaucoma_fields text).map GlaucomaVals.vcdr_left = some (some v) ∧
          (glaucoma_fields text).map GlaucomaVals.vcdr_right = some none) ∧
        (containsSub (chars "left eye") (lowerS sec) = false →
          (glaucoma_fields text).map GlaucomaVals.vcdr_right = some (some v) ∧
          (glaucoma_fields text).map GlaucomaVals.vcdr_left = some none)) ∧
      ((findAllVCDR sec).length = 1 →
        pyFloatOfCapture ((findAllVCDR sec).getD 0 []) = none →
        glaucoma_fields text = none) ∧
      ((findAllVCDR sec).length = 0 →
        (glaucoma_fields text).map GlaucomaVals.vcdr_right = some none ∧
        (glaucoma_fields text).map GlaucomaVals.vcdr_left = some none)) ∧
    ((glaucoma_fields (chars
        "Glaucoma Screening Report\nSCREENING RESULT\nRight eye VCDR - 0.4\nLeft eye VCDR - 0.6\n")).map
        GlaucomaVals.vcdr_right = some (some ⟨0, 4, 1⟩) ∧
     (glaucoma_fields (chars
        "Glaucoma Screening Report\nSCREENING RESULT\nRight eye VCDR - 0.4\nLeft eye VCDR - 0.6\n")).map
        GlaucomaVals.vcdr_left = some (some ⟨0, 6, 1⟩)) ∧
    ((glaucoma_fields (chars "SCREENING RESULT\nleft eye VCDR - 0.5\n")).map
        GlaucomaVals.vcdr_left = some (some ⟨0, 5, 1⟩) ∧
     (glaucoma_fields (chars "SCREENING RESULT\nleft eye VCDR - 0.5\n")).map
        GlaucomaVals.vcdr_right = some none) := by
  refine ⟨?_, by decide, by decide⟩
  intro text sec h
  refine ⟨?_, ?_, ?_, ?_, ?_⟩
  · intro r l hlen hr hl
    constructor
    · simp only [glaucoma_fields, h]
      rw [if_pos hlen, hr, hl]
      rfl
    · simp only [glaucoma_fields, h]
      rw [if_pos hlen, hr, hl]
      rfl
  · intro hlen hor
    simp only [glaucoma_fields, h]
    rw [if_pos hlen]
    rcases hor with h0 | h1
    · rw [h0]
    · cases hv0 : pyFloatOfCapture ((findAllVCDR sec).getD 0 []) with
      | none => rfl
      | some r => rw [h1]
  · intro v hlen hv
    constructor
    · intro hleft
      constructor
      · simp only [glaucoma_fields, h]
        rw [if_neg (by omega), if_pos hlen, if_pos hleft, hv]
        rfl
      · simp only [glaucoma_fields, h]
        rw [if_neg (by omega), if_pos hlen, if_pos hleft, hv]
        rfl
    · intro hleft
      constructor
      · simp only [glaucoma_fields, h]
        rw [if_neg (by omega), if_pos hlen, if_neg (by rw [hleft]; simp), hv]
        rfl
      · simp only [glaucoma_fields, h]
        rw [if_neg (by omega), if_pos hlen, if_neg (by rw [hleft]; simp), hv]
        rfl
  · intro hlen hv0
    simp only [glaucoma_fields, h]
    rw [if_neg (by omega), if_pos hlen]
    by_cases hleft : containsSub (chars "left eye") (lowerS sec) = true
    · rw [if_pos hleft, hv0]
    · rw [if_neg hleft, hv0]
  · intro hlen
    constructor
    · simp only [glaucoma_fields, h]
      rw [if_neg (by omega), if_neg (by omega)]
      rfl
    · simp only [glaucoma_fields, h]
      rw [if_neg (by omega), if_neg (by omega)]
      rfl

/-- Witness for the amended C6 at a section with two convertible
measurement captures. -/
theorem c6_measurement_assignment_witness :
    (glaucoma_fields (chars "SCREENING RESULT VCDR - 0.3 VCDR - 0.7")).map
        GlaucomaVals.vcdr_right = some (some ⟨0, 3, 1⟩) ∧
    (glaucoma_fields (chars "SCREENING RESULT VCDR - 0.3 VCDR - 0.7")).map
        GlaucomaVals.vcdr_left = some (some ⟨0, 7, 1⟩) :=
  (c6_measurement_assignment.1 (chars "SCREENING RESULT VCDR - 0.3 VCDR - 0.7")
      (chars "VCDR - 0.3 VCDR - 0.7") (by decide)).1 ⟨0, 3, 1⟩ ⟨0, 7, 1⟩
    (by decide) (by decide) (by decide)

/-- A successful measurement extraction never touches the diagnostic
tables. -/
theorem gl_preserves_dr (t : Str) (e : Nat) (s s2 : OcrSession)
    (h : extract_glaucoma_data t e s = some s2) :
    s2.drPersisted = s.drPersisted ∧ s2.drPending = s.drPending := by
  unfold extract_glaucoma_data at h
  split at h
  · simp at h
  · have h2 : (if ((s.glPersisted ++ s.glPending).find? fun rep =>
        rep.patient_encounter_id == e).isSome = true then s
      else ⟨s.drPersisted, s.drPending, s.glPersisted, _⟩) = s2 :=
      (Option.some.injEq _ _).mp h
    split at h2
    · subst h2
      exact ⟨rfl, rfl⟩
    · subst h2
      exact ⟨rfl, rfl⟩

/-- Diagnostic extraction never touches the measurement tables. -/
theorem dr_preserves_gl (t : Str) (e : Nat) (s : OcrSession) :
    (extract_dr_data t e s).glPersisted = s.glPersisted ∧
    (extract_dr_data t e s).glPending = s.glPending := by
  unfold extract_dr_data
  split
  · exact ⟨rfl, rfl⟩
  · split
    · exact ⟨rfl, rfl⟩
    · exact ⟨rfl, rfl⟩

/-- One diagnostic extraction keeps the per-encounter finding count at
or below one. -/
theorem drCount_extract_dr (t : Str) (e e2 : Nat) (s : OcrSession)
    (h : drCount e s ≤ 1) : drCount e (extract_dr_data t e2 s) ≤ 1 := by
  unfold extract_dr_data
  split
  · exact h
  · split
    · exact h
    · rename_i r hm hfind
      have hnone : ((s.drPersisted ++ s.drPending).find? fun rep =>
          rep.patient_encounter_id == e2) = none :=
        Option.not_isSome_iff_eq_none.mp hfind
      unfold drCount at h ⊢
      dsimp only
      rw [← List.append_assoc, List.countP_append]
      by_cases hee : e2 = e
      · subst hee
        have hzero : ((s.drPersisted ++ s.drPending).countP fun rep =>
            rep.patient_encounter_id == e2) = 0 := by
          rw [List.countP_eq_zero]
          intro x hx
          exact List.find?_eq_none.mp hnone x hx
        rw [hzero]
        simp [List.countP_cons]
      · have hone : (([(⟨e2, r⟩ : DiabeticRetinopathyReport)]).countP fun rep =>
            rep.patient_encounter_id == e) = 0 := by
          simp [hee]
        rw [hone]
        omega

/-- A successful page dispatch keeps the per-encounter finding count
at or below one. -/
theorem drCount_page (t : Str) (e e2 : Nat) (s s2 : OcrSession)
    (h : drCount e s ≤ 1) (hp : page_extract t e2 s = some s2) :
    drCount e s2 ≤ 1 := by
  have hinner : drCount e (if containsSub (chars "Diabetic Retinopathy Report") t then
      extract_dr_data t e2 s else s) ≤ 1 := by
    split
    · exact drCount_extract_dr t e e2 s h
    · exact h
  unfold page_extract at hp
  split at hp
  · have hgl := gl_preserves_dr t e2 _ s2 hp
    unfold drCount at hinner ⊢
    rw [hgl.1, hgl.2]
    exact hinner
  · have h2 : _ = s2 := (Option.some.injEq _ _).mp hp
    subst h2
    exact hinner

/-- Any session event keeps the per-encounter finding count at or below
one. -/
theorem drCount_step (op : OcrOp) (e : Nat) (s : OcrSession)
    (h : drCount e s ≤ 1) : drCount e (applyOcrOp op s) ≤ 1 := by
  cases op with
  | page t e2 =>
    unfold applyOcrOp
    dsimp only
    cases hp : page_extract t e2 s with
    | some s2 => exact drCount_page t e e2 s s2 h hp
    | none =>
      unfold drCount at h ⊢
      dsimp only
      rw [List.append_nil]
      rw [List.countP_append] at h
      omega
  | commit =>
    unfold drCount at h
    unfold applyOcrOp drCount
    dsimp only
    rw [List.append_nil]
    exact h
  | rollback =>
    unfold drCount at h
    rw [List.countP_append] at h
    unfold applyOcrOp drCount
    dsimp only
    rw [List.append_nil]
    omega

/-- C8: an encounter that already has a stored diagnostic finding never
receives a second one from any diagnostic-extractor invocation, and the
at-most-one-finding-per-encounter bound is an invariant of every
sequence of OCR session events (pages, commits, rollbacks) across any
number of runs. -/
theorem c8_at_most_one_dr_report :
    (∀ text e s, 1 ≤ (s.drPersisted.countP fun r =>
        r.patient_encounter_id == e) →
      extract_dr_data text e s = s) ∧
    (∀ ops e s, drCount e s ≤ 1 → drCount e (applyOcrOps ops s) ≤ 1) := by
  constructor
  · intro text e s hstored
    unfold extract_dr_data
    split
    · rfl
    · split
      · rfl
      · rename_i r hm hfind
        exfalso
        apply hfind
        obtain ⟨x, hx, hpx⟩ := List.countP_pos_iff.mp
          (by omega : 0 < s.drPersisted.countP fun r => r.patient_encounter_id == e)
        exact List.find?_isSome.mpr ⟨x, by simp [hx], hpx⟩
  · intro ops
    induction ops with
    | nil => intro e s h; exact h
    | cons op rest ih =>
      intro e s h
      exact ih e (applyOcrOp op s) (drCount_step op e s h)

/-- Witness for C8: a stored finding blocks a new one, and the bound
survives a page-and-commit run. -/
theorem c8_at_most_one_dr_report_witness :
    extract_dr_data (chars "Result DR: X") 1
        ⟨[⟨1, chars "Y"⟩], [], [], []⟩ =
      ⟨[⟨1, chars "Y"⟩], [], [], []⟩ ∧
    drCount 1 (applyOcrOps
        [OcrOp.page (chars "Diabetic Retinopathy Report Result DR: X") 1,
         OcrOp.commit]
        ⟨[⟨1, chars "Y"⟩], [], [], []⟩) ≤ 1 :=
  ⟨c8_at_most_one_dr_report.1 (chars "Result DR: X") 1
      ⟨[⟨1, chars "Y"⟩], [], [], []⟩ (by decide),
   c8_at_most_one_dr_report.2
      [OcrOp.page (chars "Diabetic Retinopathy Report Result DR: X") 1,
       OcrOp.commit] 1
      ⟨[⟨1, chars "Y"⟩], [], [], []⟩ (by decide)⟩

/-- C10: a page carrying the glaucoma title marker but no screening
section, for an encounter with no stored measurement finding, is
processed without raising (the float conversions are never reached)
and still creates a measurement finding with both measurements unset
and the not-available sentinel as its result. -/
theorem c10_na_record_without_section (text : Str) (e : Nat) (s : OcrSession)
    (h1 : containsSub (chars "Glaucoma Screening Report") text = true)
    (h2 : containsSub (chars "screening result") (lowerS text) = false)
    (h3 : ((s.glPersisted ++ s.glPending).find? fun rep =>
        rep.patient_encounter_id == e) = none) :
    (page_extract text e s).map OcrSession.glPersisted = some s.glPersisted ∧
    (page_extract text e s).map OcrSession.glPending =
      some (s.glPending ++ [⟨e, none, none, chars "N/A"⟩]) := by
  have hfields : glaucoma_fields text = some ⟨none, none, chars "N/A"⟩ := by
    unfold glaucoma_fields
    rw [show screeningSection text = none by
      unfold screeningSection
      rw [dropAfterCI_eq_none _ _ h2]]
  have hS1 : ((if containsSub (chars "Diabetic Retinopathy Report") text then
        extract_dr_data text e s else s).glPersisted = s.glPersisted) ∧
      ((if containsSub (chars "Diabetic Retinopathy Report") text then
        extract_dr_data text e s else s).glPending = s.glPending) := by
    split
    · exact dr_preserves_gl text e s
    · exact ⟨rfl, rfl⟩
  unfold page_extract
  rw [if_pos h1]
  unfold extract_glaucoma_data
  rw [hfields]
  dsimp only
  rw [if_neg (by rw [show ((if containsSub (chars "Diabetic Retinopathy Report") text then
        extract_dr_data text e s else s).glPersisted ++
        (if containsSub (chars "Diabetic Retinopathy Report") text then
        extract_dr_data text e s else s).glPending).find?
        (fun rep => rep.patient_encounter_id == e) = none by
      rw [hS1.1, hS1.2]; exact h3]; simp)]
  refine ⟨?_, ?_⟩
  · dsimp only [Option.map]
    rw [hS1.1]
  · dsimp only [Option.map]
    rw [hS1.2]

/-- Witness for C10 at a concrete page with the title marker only. -/
theorem c10_na_record_without_section_witness :
    (page_extract (chars "Glaucoma Screening Report\nno details") 2
        ⟨[], [], [], []⟩).map OcrSession.glPersisted = some [] ∧
    (page_extract (chars "Glaucoma Screening Report\nno details") 2
        ⟨[], [], [], []⟩).map OcrSession.glPending =
      some ([] ++ [⟨2, none, none, chars "N/A"⟩]) :=
  c10_na_record_without_section (chars "Glaucoma Screening Report\nno details") 2
    ⟨[], [], [], []⟩ (by decide) (by decide) (by decide)

end FundusXtract
